import Mathlib

/-!
Verification of the round-simulation and candle-aggregation engine of the
mixgme repository.  Prices, timestamps and volumes are modelled as exact
rationals; every JS `number` computation in the embedded fragments is pure
arithmetic on such values.  Randomness (`Math.random()`) is modelled as an
explicit stream `rand : Nat -> Rat` of draws, indexed in the order the
source calls `Math.random()`.
-/

namespace Mixgme

/-- OHLC candle data, embedding `CandleData` from
`src/components/Chart/CandlestickChart.tsx` (`open`, `high`, `low`,
`close`, `time`, `volume`).  `open` is a Lean keyword, so that field is
called `open_`. -/
structure CandleData where
  open_ : ℚ
  high : ℚ
  low : ℚ
  close : ℚ
  time : ℚ
  volume : ℚ
deriving DecidableEq, Repr, Inhabited

/-- The candle well-formedness invariant from the data model:
`low ≤ min(open, close)` and `high ≥ max(open, close)`. -/
def CandleInv (c : CandleData) : Prop :=
  c.low ≤ min c.open_ c.close ∧ max c.open_ c.close ≤ c.high

instance (c : CandleData) : Decidable (CandleInv c) := by
  unfold CandleInv; infer_instance

/-- Stable insertion of a candle into a list ordered by ascending `time`;
an element already in place with `time ≤ c.time` stays in front.  Together
with `sortByTime` this models the stable JS
`[...candles].sort((a, b) => a.time - b.time)`. -/
def insertByTime (c : CandleData) : List CandleData → List CandleData
  | [] => [c]
  | d :: ds => if d.time ≤ c.time then d :: insertByTime c ds else c :: d :: ds

/-- Stable sort by ascending `time` (insertion sort). -/
def sortByTime : List CandleData → List CandleData
  | [] => []
  | c :: cs => insertByTime c (sortByTime cs)

/-- Strictly chronological buffers: every candle is strictly earlier than
all later ones.  This is how the chart buffer is built (each candle is
created at a strictly later `Date.now()`). -/
def Chronological (l : List CandleData) : Prop :=
  l.Pairwise (fun a b => a.time < b.time)

instance (l : List CandleData) : Decidable (Chronological l) := by
  unfold Chronological; infer_instance

theorem insertByTime_eq_cons (c : CandleData) (l : List CandleData)
    (h : ∀ d ∈ l, c.time < d.time) : insertByTime c l = c :: l := by
  cases l with
  | nil => rfl
  | cons d ds =>
      have hd : c.time < d.time := h d (List.mem_cons_self d ds)
      simp [insertByTime, not_le.mpr hd]

theorem sortByTime_eq_self (l : List CandleData) (h : Chronological l) :
    sortByTime l = l := by
  induction l with
  | nil => rfl
  | cons c cs ih =>
      rw [Chronological, List.pairwise_cons] at h
      rw [sortByTime, ih h.2, insertByTime_eq_cons c cs h.1]

/-- Embeds `aggregateCandles` from `CandlestickChart.tsx`.  The source
throws `Error("Cannot aggregate empty candle array")` on an empty array
(modelled as `Except.error`), returns a single candle unchanged, and
otherwise merges: `open`/`close`/`time` from the chronologically first and
last candles, and wick-bounded `high`/`low`.  `Math.max(...allHighs)` of
the non-empty list is modelled as a fold seeded with the first element's
`high` (a member of the list, so the value is the same maximum); likewise
for the minimum and for the volume sum `reduce((s, c) => s + c.volume, 0)`. -/
def aggregateCandles : List CandleData → Except String CandleData
  | [] => .error "Cannot aggregate empty candle array"
  | [c] => .ok c
  | c1 :: c2 :: rest =>
    let sortedByTime := sortByTime (c1 :: c2 :: rest)
    let first := sortedByTime.headI
    let lastC := sortedByTime.getLastI
    let o := first.open_
    let cl := lastC.close
    let bodyHigh := max o cl
    let bodyLow := min o cl
    let bodyRange := bodyHigh - bodyLow
    let maxHigh := (sortedByTime.map CandleData.high).foldl max first.high
    let minLow := (sortedByTime.map CandleData.low).foldl min first.low
    let priceLevel := (o + cl) / 2
    let maxWickExtension :=
      if 0 < bodyRange then min (bodyRange * 0.20) (priceLevel * 0.005)
      else priceLevel * 0.001
    let limitedHigh := min maxHigh (bodyHigh + maxWickExtension)
    let limitedLow := max minLow (bodyLow - maxWickExtension)
    .ok { open_ := o, high := limitedHigh, low := limitedLow, close := cl,
          time := first.time,
          volume := (sortedByTime.map CandleData.volume).foldl (· + ·) 0 }

/-- Embeds `performCandleAggregation` from `CandlestickChart.tsx`: buffers
shorter than 30 are returned unchanged; otherwise the three oldest candles
are replaced by their aggregate.  A thrown JS error propagates, hence the
`Except`. -/
def performCandleAggregation (chartData : List CandleData) :
    Except String (List CandleData) :=
  if chartData.length < 30 then .ok chartData
  else (aggregateCandles (chartData.take 3)).map
    (fun aggregated => aggregated :: chartData.drop 3)

/-- Any list with at least two candles aggregates without an error. -/
theorem aggregateCandles_isOk (l : List CandleData) (h : 2 ≤ l.length) :
    ∃ c, aggregateCandles l = .ok c := by
  match l with
  | [] => simp at h
  | [c] => simp at h
  | c1 :: c2 :: rest => exact ⟨_, rfl⟩

/-- The wick-extension bound (`maxWickExtension`) computed by
`aggregateCandles` for a merge whose chronologically first candle is `a`
and last candle is `b`: with `bodyHigh = max(open, close)`,
`bodyLow = min(open, close)`, `bodyRange = bodyHigh - bodyLow` and
`priceLevel = (open + close) / 2`, it is
`min(bodyRange * 0.20, priceLevel * 0.005)` when `bodyRange > 0` and
`priceLevel * 0.001` otherwise. -/
def aggExt (a b : CandleData) : ℚ :=
  let bodyRange := max a.open_ b.close - min a.open_ b.close
  let priceLevel := (a.open_ + b.close) / 2
  if 0 < bodyRange then min (bodyRange * 0.20) (priceLevel * 0.005)
  else priceLevel * 0.001

/-- Closed form of `aggregateCandles` on a chronological 3-candle list. -/
theorem aggregateCandles_triple (x1 x2 x3 : CandleData)
    (h : Chronological [x1, x2, x3]) :
    aggregateCandles [x1, x2, x3] = .ok
      { open_ := x1.open_,
        high := min (max (max x1.high x2.high) x3.high)
          (max x1.open_ x3.close + aggExt x1 x3),
        low := max (min (min x1.low x2.low) x3.low)
          (min x1.open_ x3.close - aggExt x1 x3),
        close := x3.close,
        time := x1.time,
        volume := x1.volume + x2.volume + x3.volume } := by
  have hs : sortByTime [x1, x2, x3] = [x1, x2, x3] := sortByTime_eq_self _ h
  simp only [aggregateCandles, hs, aggExt, List.headI, List.getLastI,
    List.getLastD, List.map, List.foldl, max_self, min_self, zero_add]

/-- C3: whenever compaction merges the 3 oldest candles of a (chronological)
buffer that has reached the threshold, the buffer length decreases by
exactly 2, and the merged candle has `open` and `startTime` from the first
source candle, `close` from the last, `high = min(rawHigh, bodyHigh + maxExt)`
and `low = max(rawLow, bodyLow - maxExt)` with `maxExt` as in `aggExt`;
the naive max/min merge is not used (witnessed by a concrete triple whose
merged high is strictly below the raw maximum of the highs). -/
theorem compaction_merged_candle_spec (x1 x2 x3 : CandleData)
    (rest : List CandleData)
    (hlen : 30 ≤ (x1 :: x2 :: x3 :: rest).length)
    (hchron : Chronological (x1 :: x2 :: x3 :: rest)) :
    ∃ merged,
      performCandleAggregation (x1 :: x2 :: x3 :: rest) = .ok (merged :: rest) ∧
      (merged :: rest).length + 2 = (x1 :: x2 :: x3 :: rest).length ∧
      merged.open_ = x1.open_ ∧ merged.close = x3.close ∧
      merged.time = x1.time ∧
      merged.high = min (max (max x1.high x2.high) x3.high)
        (max x1.open_ x3.close + aggExt x1 x3) ∧
      merged.low = max (min (min x1.low x2.low) x3.low)
        (min x1.open_ x3.close - aggExt x1 x3) ∧
      (∃ m, aggregateCandles
          [⟨1, 3, 1, 1, 0, 0⟩, ⟨1, 1, 1, 1, 1, 0⟩, ⟨1, 1, 1, 1.01, 2, 0⟩] = .ok m ∧
          m.high < max (max 3 1) 1) := by
  have htriple : Chronological [x1, x2, x3] :=
    hchron.sublist (List.sublist_append_left [x1, x2, x3] rest)
  have h3 := aggregateCandles_triple x1 x2 x3 htriple
  have htake : (x1 :: x2 :: x3 :: rest).take 3 = [x1, x2, x3] := rfl
  have hperf : performCandleAggregation (x1 :: x2 :: x3 :: rest) =
      .ok ({ open_ := x1.open_,
             high := min (max (max x1.high x2.high) x3.high)
               (max x1.open_ x3.close + aggExt x1 x3),
             low := max (min (min x1.low x2.low) x3.low)
               (min x1.open_ x3.close - aggExt x1 x3),
             close := x3.close,
             time := x1.time,
             volume := x1.volume + x2.volume + x3.volume } :: rest) := by
    rw [performCandleAggregation, if_neg (by omega), htake, h3]
    rfl
  refine ⟨_, hperf, by simp, rfl, rfl, rfl, rfl, rfl, ?_⟩
  refine ⟨_, aggregateCandles_triple _ _ _ (by decide), ?_⟩
  norm_num [aggExt]

/-- A list of `n` constant candles with strictly increasing times starting
at `t` (used only to build concrete witnesses). -/
def constCandles : ℕ → ℚ → List CandleData
  | 0, _ => []
  | n + 1, t => ⟨1, 1, 1, 1, t, 0⟩ :: constCandles n (t + 1)

theorem constCandles_length (n : ℕ) (t : ℚ) : (constCandles n t).length = n := by
  induction n generalizing t with
  | zero => rfl
  | succ n ih => simp [constCandles, ih]

theorem constCandles_time_ge (n : ℕ) (t : ℚ) :
    ∀ c ∈ constCandles n t, t ≤ c.time := by
  induction n generalizing t with
  | zero => intro c hc; simp [constCandles] at hc
  | succ n ih =>
      intro c hc
      rw [constCandles] at hc
      rcases List.mem_cons.mp hc with rfl | hc
      · simp
      · have := ih (t + 1) c hc
        linarith

theorem constCandles_chron (n : ℕ) (t : ℚ) : Chronological (constCandles n t) := by
  induction n generalizing t with
  | zero => exact List.Pairwise.nil
  | succ n ih =>
      refine List.Pairwise.cons ?_ (ih (t + 1))
      intro c hc
      have := constCandles_time_ge n (t + 1) c hc
      show _ < c.time
      linarith

/-- Witness for C3: a concrete 30-candle chronological buffer. -/
theorem compaction_merged_candle_spec_witness :
    (30 ≤ ((⟨1, 3, 1, 1, 0, 0⟩ : CandleData) :: ⟨1, 1, 1, 1, 1, 0⟩ ::
        ⟨1, 1, 1, 1.01, 2, 0⟩ ::
        constCandles 27 3).length) ∧
    ∃ merged,
      performCandleAggregation ((⟨1, 3, 1, 1, 0, 0⟩ : CandleData) :: ⟨1, 1, 1, 1, 1, 0⟩ ::
          ⟨1, 1, 1, 1.01, 2, 0⟩ ::
          constCandles 27 3) =
        .ok (merged :: constCandles 27 3) ∧
      (merged :: constCandles 27 3).length + 2 =
        ((⟨1, 3, 1, 1, 0, 0⟩ : CandleData) :: ⟨1, 1, 1, 1, 1, 0⟩ ::
          ⟨1, 1, 1, 1.01, 2, 0⟩ ::
          constCandles 27 3).length ∧
      merged.open_ = (⟨1, 3, 1, 1, 0, 0⟩ : CandleData).open_ ∧
      merged.close = (⟨1, 1, 1, 1.01, 2, 0⟩ : CandleData).close ∧
      merged.time = (⟨1, 3, 1, 1, 0, 0⟩ : CandleData).time ∧
      merged.high = min (max (max (3 : ℚ) 1) 1)
        (max (1 : ℚ) 1.01 + aggExt ⟨1, 3, 1, 1, 0, 0⟩ ⟨1, 1, 1, 1.01, 2, 0⟩) ∧
      merged.low = max (min (min (1 : ℚ) 1) 1)
        (min (1 : ℚ) 1.01 - aggExt ⟨1, 3, 1, 1, 0, 0⟩ ⟨1, 1, 1, 1.01, 2, 0⟩) ∧
      (∃ m, aggregateCandles
          [⟨1, 3, 1, 1, 0, 0⟩, ⟨1, 1, 1, 1, 1, 0⟩, ⟨1, 1, 1, 1.01, 2, 0⟩] = .ok m ∧
          m.high < max (max 3 1) 1) := by
  have hc3 : ∀ c ∈ constCandles 27 3, (3 : ℚ) ≤ c.time := constCandles_time_ge 27 3
  have hlen30 : 30 ≤ ((⟨1, 3, 1, 1, 0, 0⟩ : CandleData) :: ⟨1, 1, 1, 1, 1, 0⟩ ::
      ⟨1, 1, 1, 1.01, 2, 0⟩ :: constCandles 27 3).length := by
    simp [constCandles_length]
  have hchron : Chronological ((⟨1, 3, 1, 1, 0, 0⟩ : CandleData) :: ⟨1, 1, 1, 1, 1, 0⟩ ::
      ⟨1, 1, 1, 1.01, 2, 0⟩ :: constCandles 27 3) := by
    refine List.Pairwise.cons ?_
      (List.Pairwise.cons ?_ (List.Pairwise.cons ?_ (constCandles_chron 27 3)))
    · intro c hc
      rcases List.mem_cons.mp hc with rfl | hc
      · norm_num
      rcases List.mem_cons.mp hc with rfl | hc
      · norm_num
      have := hc3 c hc
      show (0 : ℚ) < c.time
      linarith
    · intro c hc
      rcases List.mem_cons.mp hc with rfl | hc
      · norm_num
      have := hc3 c hc
      show (1 : ℚ) < c.time
      linarith
    · intro c hc
      have := hc3 c hc
      show (2 : ℚ) < c.time
      linarith
  exact ⟨hlen30, compaction_merged_candle_spec _ _ _ _ hlen30 hchron⟩

/-- C10: `aggregateCandles` applied to an empty candle list throws
(`"Cannot aggregate empty candle array"`); applied to a single-element
list it returns that candle unchanged (no wick bounding); and for every
list of length at least 2 it returns normally without throwing. -/
theorem aggregateCandles_error_handling (c : CandleData)
    (l : List CandleData) (hl : 2 ≤ l.length) :
    aggregateCandles [] = .error "Cannot aggregate empty candle array" ∧
    aggregateCandles [c] = .ok c ∧
    ∃ m, aggregateCandles l = .ok m := by
  refine ⟨rfl, rfl, aggregateCandles_isOk l hl⟩

/-- Witness for C10 at a concrete candle and a concrete 2-candle list. -/
theorem aggregateCandles_error_handling_witness :
    2 ≤ ([⟨1, 2, 1, 2, 0, 5⟩, ⟨2, 3, 2, 3, 1, 5⟩] : List CandleData).length ∧
    (aggregateCandles [] = .error "Cannot aggregate empty candle array" ∧
     aggregateCandles [(⟨1, 2, 1, 2, 0, 5⟩ : CandleData)] = .ok ⟨1, 2, 1, 2, 0, 5⟩ ∧
     ∃ m, aggregateCandles [(⟨1, 2, 1, 2, 0, 5⟩ : CandleData), ⟨2, 3, 2, 3, 1, 5⟩] = .ok m) :=
  ⟨by decide, aggregateCandles_error_handling ⟨1, 2, 1, 2, 0, 5⟩ _ (by decide)⟩

/-- Candle opened at round start or at a candle boundary in
`startNewGame` (`CandlestickChart.tsx`): all four OHLC fields equal the
current value. -/
def mkCandle (value time volume : ℚ) : CandleData :=
  { open_ := value, high := value, low := value, close := value,
    time := time, volume := volume }

/-- The per-tick candle update in `startNewGame`
(`close := value, high := max(high, value), low := min(low, value)`);
the source uses this same form both for the in-progress update and to
finalize the previous candle. -/
def updateCandle (c : CandleData) (value : ℚ) : CandleData :=
  { c with close := value, high := max c.high value, low := min c.low value }

/-- The crash collapse candle appended on crash in `startNewGame`:
`open = high = lastPrice`, `low = close = 0`. -/
def crashCandle (lastPrice time volume : ℚ) : CandleData :=
  { open_ := lastPrice, high := lastPrice, low := 0, close := 0,
    time := time, volume := volume }

/-- The wick-extension bound is nonnegative whenever the merged body's
price level is (equivalently, `open + close ≥ 0`). -/
theorem aggExt_nonneg (a b : CandleData) (h : 0 ≤ a.open_ + b.close) :
    0 ≤ aggExt a b := by
  have hpl : 0 ≤ (a.open_ + b.close) / 2 := by linarith
  unfold aggExt
  dsimp only
  split_ifs with h0
  · exact le_min (by linarith) (by linarith)
  · linarith

/-- C5 (amended): the candle invariant `low ≤ min(open, close) ≤
max(open, close) ≤ high` holds when a candle is opened, is preserved by
every fold of a new value, by finalization (the same update), by
compaction of invariant-satisfying candles whose merged body price level
is nonnegative, and by the crash collapse candle for a nonnegative last
price. -/
theorem candle_invariant_stages
    (v t vol w p : ℚ) (c x1 x2 x3 : CandleData)
    (hc : CandleInv c)
    (h1 : CandleInv x1) (h2 : CandleInv x2) (h3 : CandleInv x3)
    (hchron : Chronological [x1, x2, x3])
    (hnn : 0 ≤ x1.open_ + x3.close)
    (hp : 0 ≤ p) :
    CandleInv (mkCandle v t vol) ∧
    CandleInv (updateCandle c w) ∧
    (∀ m, aggregateCandles [x1, x2, x3] = .ok m → CandleInv m) ∧
    CandleInv (crashCandle p t vol) := by
  obtain ⟨hcl, hch⟩ := hc
  obtain ⟨h1l, h1h⟩ := h1
  obtain ⟨h3l, h3h⟩ := h3
  refine ⟨⟨le_min le_rfl le_rfl, max_le le_rfl le_rfl⟩, ?_, ?_, ?_⟩
  · have ho1 : c.low ≤ c.open_ := le_trans hcl (min_le_left _ _)
    have ho2 : c.open_ ≤ c.high := le_trans (le_max_left _ _) hch
    exact ⟨min_le_min ho1 le_rfl, max_le_max ho2 le_rfl⟩
  · intro m hm
    rw [aggregateCandles_triple x1 x2 x3 hchron] at hm
    injection hm with hm
    subst hm
    have hext : 0 ≤ aggExt x1 x3 := aggExt_nonneg x1 x3 hnn
    have hrawlow1 : min (min x1.low x2.low) x3.low ≤ x1.open_ :=
      le_trans (le_trans (min_le_left _ _) (min_le_left _ _))
        (le_trans h1l (min_le_left _ _))
    have hrawlow3 : min (min x1.low x2.low) x3.low ≤ x3.close :=
      le_trans (min_le_right _ _) (le_trans h3l (min_le_right _ _))
    have hrawhigh1 : x1.open_ ≤ max (max x1.high x2.high) x3.high :=
      le_trans (le_trans (le_max_left _ _) h1h)
        (le_trans (le_max_left _ _) (le_max_left _ _))
    have hrawhigh3 : x3.close ≤ max (max x1.high x2.high) x3.high :=
      le_trans (le_trans (le_max_right _ _) h3h) (le_max_right _ _)
    constructor
    · exact max_le (le_min hrawlow1 hrawlow3)
        (sub_le_self (min x1.open_ x3.close) hext)
    · exact le_min (max_le hrawhigh1 hrawhigh3)
        (le_add_of_nonneg_right hext)
  · exact ⟨le_min hp le_rfl, max_le le_rfl hp⟩

/-- Witness for C5 at concrete values and candles. -/
theorem candle_invariant_stages_witness :
    (CandleInv (⟨1, 2, 1, 2, 0, 0⟩ : CandleData) ∧
     CandleInv (⟨1, 1, 1, 1, 0, 0⟩ : CandleData) ∧
     CandleInv (⟨1, 1, 1, 1, 1, 0⟩ : CandleData) ∧
     CandleInv (⟨1, 1, 1, 1, 2, 0⟩ : CandleData) ∧
     Chronological [⟨1, 1, 1, 1, 0, 0⟩, ⟨1, 1, 1, 1, 1, 0⟩, ⟨1, 1, 1, 1, 2, 0⟩] ∧
     (0 : ℚ) ≤ (⟨1, 1, 1, 1, 0, 0⟩ : CandleData).open_ +
       (⟨1, 1, 1, 1, 2, 0⟩ : CandleData).close ∧
     (0 : ℚ) ≤ 3) ∧
    (CandleInv (mkCandle 1 0 5) ∧
     CandleInv (updateCandle ⟨1, 2, 1, 2, 0, 0⟩ 2) ∧
     (∀ m, aggregateCandles [(⟨1, 1, 1, 1, 0, 0⟩ : CandleData), ⟨1, 1, 1, 1, 1, 0⟩,
        ⟨1, 1, 1, 1, 2, 0⟩] = .ok m → CandleInv m) ∧
     CandleInv (crashCandle 3 0 5)) := by
  refine ⟨⟨by decide, by decide, by decide, by decide, by decide, by norm_num, by norm_num⟩, ?_⟩
  exact candle_invariant_stages 1 0 5 2 3 ⟨1, 2, 1, 2, 0, 0⟩ _ _ _
    (by decide) (by decide) (by decide) (by decide) (by decide) (by norm_num) (by norm_num)

/-- C5 counterexample: three candles that each satisfy the invariant (and
are chronological), yet whose aggregate violates it — a negative price
level makes the wick bound negative, pushing `high` strictly below the
body.  This refutes the claim as stated (compaction of arbitrary
invariant-satisfying candles). -/
theorem candle_invariant_counterexample :
    CandleInv (⟨-1, -1, -1, -1, 0, 0⟩ : CandleData) ∧
    CandleInv (⟨-1, -1, -1, -1, 1, 0⟩ : CandleData) ∧
    CandleInv (⟨-1, -1, -1, -1, 2, 0⟩ : CandleData) ∧
    Chronological [⟨-1, -1, -1, -1, 0, 0⟩, ⟨-1, -1, -1, -1, 1, 0⟩,
      ⟨-1, -1, -1, -1, 2, 0⟩] ∧
    ∃ m, aggregateCandles [(⟨-1, -1, -1, -1, 0, 0⟩ : CandleData),
        ⟨-1, -1, -1, -1, 1, 0⟩, ⟨-1, -1, -1, -1, 2, 0⟩] = .ok m ∧
      ¬ CandleInv m := by
  refine ⟨by decide, by decide, by decide, by decide, _,
    aggregateCandles_triple _ _ _ (by decide), ?_⟩
  norm_num [CandleInv, aggExt, min_def, max_def]

/-- Candle interval used by `startNewGame`: 500 ms in test mode, else
3000 ms. -/
def candleInterval (testMode : Bool) : ℚ := if testMode then 500 else 3000

/-- JS `array.slice(-n)`: the last `n` elements (the whole array when it
is shorter). -/
def sliceLast {α : Type*} (n : ℕ) (l : List α) : List α :=
  l.drop (l.length - n)

theorem sliceLast_of_le {α : Type*} (n : ℕ) (l : List α)
    (h : l.length ≤ n) : sliceLast n l = l := by
  simp [sliceLast, Nat.sub_eq_zero_of_le h]

/-- One firing of the candle interval in `startNewGame`
(`CandlestickChart.tsx`), restricted to its buffer update: if the candle
interval has elapsed, the last candle is finalized with the current
value, a new candle is opened at it, the buffer is compacted when at the
threshold, and the last 100 candles are kept (`.slice(-100)`); otherwise
the last candle is updated in place.  Indexing `prev[prev.length - 1]`
on an empty buffer throws in JS, modelled as an error. -/
def candleTickStep (testMode : Bool) (now targetPriceValue vol : ℚ)
    (prev : List CandleData) : Except String (List CandleData) :=
  match prev.getLast? with
  | none => .error "empty buffer"
  | some lastCandle =>
    if candleInterval testMode ≤ now - lastCandle.time then
      (performCandleAggregation
        (prev.dropLast ++ [updateCandle lastCandle targetPriceValue,
          mkCandle targetPriceValue now vol])).map (sliceLast 100)
    else
      .ok (prev.dropLast ++ [updateCandle lastCandle targetPriceValue])

/-- C6: `performCandleAggregation` leaves any buffer shorter than 30
unchanged; at length ≥ 30 it compacts exactly once per invocation (the
result is literally `merged :: drop 3` — no recursion — with the
non-merged candles unchanged and in order, and length decreased by 2);
and the per-tick buffer step maps any nonempty buffer of length ≤ 29 to
a nonempty buffer of length ≤ 29, so the observable buffer length never
exceeds the cap of 30. -/
theorem buffer_cap_compaction (xs ys buffer : List CandleData)
    (testMode : Bool) (now v vol : ℚ)
    (hxs : xs.length < 30) (hys : 30 ≤ ys.length)
    (hne : buffer ≠ []) (hbound : buffer.length ≤ 29) :
    performCandleAggregation xs = .ok xs ∧
    (∃ merged, aggregateCandles (ys.take 3) = .ok merged ∧
      performCandleAggregation ys = .ok (merged :: ys.drop 3) ∧
      (merged :: ys.drop 3).length + 2 = ys.length) ∧
    (∀ out, candleTickStep testMode now v vol buffer = .ok out →
      out ≠ [] ∧ out.length ≤ 29) := by
  have hbpos : 0 < buffer.length := List.length_pos.mpr hne
  refine ⟨by simp [performCandleAggregation, hxs], ?_, ?_⟩
  · have htk : (ys.take 3).length = 3 := by
      rw [List.length_take]; omega
    obtain ⟨merged, hmg⟩ := aggregateCandles_isOk (ys.take 3) (by omega)
    refine ⟨merged, hmg, ?_, ?_⟩
    · rw [performCandleAggregation, if_neg (by omega), hmg]; rfl
    · have hd : (ys.drop 3).length = ys.length - 3 := List.length_drop 3 ys
      simp only [List.length_cons]
      omega
  · intro out hout
    rcases hgl : buffer.getLast? with _ | lastCandle
    · exact absurd (List.getLast?_eq_none_iff.mp hgl) hne
    simp only [candleTickStep, hgl] at hout
    split at hout
    · set L := buffer.dropLast ++ [updateCandle lastCandle v, mkCandle v now vol] with hLdef
      have hLlen : L.length = buffer.length + 1 := by
        simp only [hLdef, List.length_append, List.length_dropLast,
          List.length_cons, List.length_nil]
        omega
      by_cases h30 : L.length < 30
      · rw [performCandleAggregation, if_pos h30] at hout
        simp only [Except.map] at hout
        injection hout with hout
        subst hout
        rw [sliceLast_of_le 100 L (by omega)]
        constructor
        · simp [hLdef]
        · omega
      · have htk : (L.take 3).length = 3 := by
          rw [List.length_take]; omega
        obtain ⟨merged, hmg⟩ := aggregateCandles_isOk (L.take 3) (by omega)
        rw [performCandleAggregation, if_neg h30, hmg] at hout
        simp only [Except.map] at hout
        injection hout with hout
        subst hout
        have hd : (L.drop 3).length = L.length - 3 := List.length_drop 3 L
        rw [sliceLast_of_le 100 _ (by simp only [List.length_cons]; omega)]
        refine ⟨by simp, ?_⟩
        simp only [List.length_cons]
        omega
    · injection hout with hout
      subst hout
      refine ⟨by simp, ?_⟩
      simp only [List.length_append, List.length_dropLast, List.length_cons,
        List.length_nil]
      omega

/-- Witness for C6 at concrete buffers (5-candle, 30-candle, singleton). -/
theorem buffer_cap_compaction_witness :
    ((constCandles 5 0).length < 30 ∧ 30 ≤ (constCandles 30 0).length ∧
     ([mkCandle 1 0 5] : List CandleData) ≠ [] ∧
     ([mkCandle 1 0 5] : List CandleData).length ≤ 29) ∧
    (performCandleAggregation (constCandles 5 0) = .ok (constCandles 5 0) ∧
     (∃ merged, aggregateCandles ((constCandles 30 0).take 3) = .ok merged ∧
       performCandleAggregation (constCandles 30 0) =
         .ok (merged :: (constCandles 30 0).drop 3) ∧
       (merged :: (constCandles 30 0).drop 3).length + 2 =
         (constCandles 30 0).length) ∧
     (∀ out, candleTickStep false 3001 2 7 [mkCandle 1 0 5] = .ok out →
       out ≠ [] ∧ out.length ≤ 29)) := by
  have h1 : (constCandles 5 0).length < 30 := by simp [constCandles_length]
  have h2 : 30 ≤ (constCandles 30 0).length := by simp [constCandles_length]
  have h3 : ([mkCandle 1 0 5] : List CandleData) ≠ [] := by simp
  have h4 : ([mkCandle 1 0 5] : List CandleData).length ≤ 29 := by simp
  exact ⟨⟨h1, h2, h3, h4⟩,
    buffer_cap_compaction (constCandles 5 0) (constCandles 30 0)
      [mkCandle 1 0 5] false 3001 2 7 h1 h2 h3 h4⟩

/-- Embeds `generateCrashPoint` from `CandlestickChart.tsx` (the live
code).  `rand` is the stream of `Math.random()` draws in call order:
draw 0 is `random`, draw 1 is `subOneRandom`/`aboveOneRandom`, draw 2 is
the in-range draw.  NOTE: the live code branches to the sub-1x outcome
when `random < 0.8`, annotated in the source as
"TEMPORARY for testing (Original: 0.3)". -/
def generateCrashPoint (rand : ℕ → ℚ) : ℚ :=
  let random := rand 0
  if random < 0.8 then
    let subOneRandom := rand 1
    if subOneRandom < 0.1 then 0.01 + rand 2 * 0.19
    else if subOneRandom < 0.3 then 0.20 + rand 2 * 0.30
    else 0.50 + rand 2 * 0.49
  else
    let aboveOneRandom := rand 1
    if aboveOneRandom < 0.4 then 1.01 + rand 2 * 0.99
    else if aboveOneRandom < 0.7 then 2.00 + rand 2 * 3.00
    else if aboveOneRandom < 0.9 then 5.00 + rand 2 * 5.00
    else 10.00 + rand 2 * 15.00

/-- Embeds `generateCrashPoint` as documented in the repository's own
implementation guide (the `Candlestick Chart Implementation Guide`
document): identical to the live code except that the sub-1x branch is
taken when `random < 0.3` (30% chance), which is also what the
`CRASH_DISTRIBUTION` constants in `CrashChart.constants.ts` state. -/
def generateCrashPointDoc (rand : ℕ → ℚ) : ℚ :=
  let random := rand 0
  if random < 0.3 then
    let subOneRandom := rand 1
    if subOneRandom < 0.1 then 0.01 + rand 2 * 0.19
    else if subOneRandom < 0.3 then 0.20 + rand 2 * 0.30
    else 0.50 + rand 2 * 0.49
  else
    let aboveOneRandom := rand 1
    if aboveOneRandom < 0.4 then 1.01 + rand 2 * 0.99
    else if aboveOneRandom < 0.7 then 2.00 + rand 2 * 3.00
    else if aboveOneRandom < 0.9 then 5.00 + rand 2 * 5.00
    else 10.00 + rand 2 * 15.00

/-- C2 (code bug): for the uniform draw stream constantly 0.5 — whose
first draw `u = 0.5` is ≥ 0.30, so the claim (and the repository's own
guide and constants) requires an above-1x outcome ≥ 1.01 — the
live `generateCrashPoint` takes the sub-1x branch (its threshold is the
leftover test value 0.8) and returns 0.745 < 1, while the documented
algorithm returns 3.5 ≥ 1.01 as the claim states. -/
theorem crash_point_threshold_bug :
    generateCrashPoint (fun _ => 0.5) = 0.745 ∧
    generateCrashPoint (fun _ => 0.5) < 1 ∧
    generateCrashPointDoc (fun _ => 0.5) = 3.5 ∧
    1.01 ≤ generateCrashPointDoc (fun _ => 0.5) := by
  refine ⟨?_, ?_, ?_, ?_⟩ <;> norm_num [generateCrashPoint, generateCrashPointDoc]

/-- Embeds `generatePriceMovement` from `CandlestickChart.tsx` (identical
in the implementation guide).  `rand` is the stream of `Math.random()`
draws in call order: draw 0 is `trend`'s draw, draw 1 is the 15% spike
test; when the spike fires its magnitude uses draw 2 and `noise` uses
draw 3, otherwise `noise` uses draw 2 (the ternary's false branch makes
no draw). -/
def generatePriceMovement (rand : ℕ → ℚ) (currentPrice volatility : ℚ) : ℚ :=
  let trend := (rand 0 - 0.5) * 3
  let spike := if rand 1 < 0.15 then (rand 2 - 0.5) * 0.2 else 0
  let noise := ((if rand 1 < 0.15 then rand 3 else rand 2) - 0.5) * volatility * 1.5
  let momentum := trend * volatility * 0.8 + noise + spike
  max 0.01 (currentPrice + momentum)

/-- C4: for every previous value and every draw stream,
`generatePriceMovement` returns
`max(0.01, previous + trend * volatility * 0.8 + noise + spike)` with the
claimed `trend`, `spike` and `noise` terms, and the result is always at
least 0.01 — in particular strictly positive, never zero or negative. -/
theorem price_stepper_floor (rand : ℕ → ℚ) (currentPrice volatility : ℚ) :
    generatePriceMovement rand currentPrice volatility =
      max 0.01 (currentPrice +
        (((rand 0 - 0.5) * 3) * volatility * 0.8 +
         ((if rand 1 < 0.15 then rand 3 else rand 2) - 0.5) * volatility * 1.5 +
         (if rand 1 < 0.15 then (rand 2 - 0.5) * 0.2 else 0))) ∧
    0.01 ≤ generatePriceMovement rand currentPrice volatility ∧
    0 < generatePriceMovement rand currentPrice volatility := by
  refine ⟨rfl, le_max_left _ _, lt_of_lt_of_le (by norm_num) (le_max_left _ _)⟩

/-- Embeds the render-loop interpolation step of `CrashChart`
(`setDisplayPrice`): snap to the target when the residual is below 1e-4,
otherwise move by `INTERPOLATION_SPEED = 0.15` of the remaining
distance. -/
def interpStep (target prev : ℚ) : ℚ :=
  if |target - prev| < 0.0001 then target
  else prev + (target - prev) * 0.15

/-- C7: one step from `displayed = 1.0` toward `target = 2.0` yields 1.15;
iteration is monotone toward a fixed target (from either side, the new
value stays between the old value and the target) and contracts the
residual by the factor 0.85, so it converges; once the residual is below
1e-4 the value snaps exactly to the target; and a step from nonnegative
values is nonnegative. -/
theorem render_interpolator_spec (target prev : ℚ)
    (htn : 0 ≤ target) (hpn : 0 ≤ prev) :
    interpStep 2 1 = 1.15 ∧
    (prev ≤ target → prev ≤ interpStep target prev ∧ interpStep target prev ≤ target) ∧
    (target ≤ prev → target ≤ interpStep target prev ∧ interpStep target prev ≤ prev) ∧
    |target - interpStep target prev| ≤ 0.85 * |target - prev| ∧
    (|target - prev| < 0.0001 → interpStep target prev = target) ∧
    0 ≤ interpStep target prev := by
  have h1 : interpStep 2 1 = 1.15 := by
    norm_num [interpStep]
  refine ⟨h1, ?_, ?_, ?_, ?_, ?_⟩
  · intro hle
    unfold interpStep
    split_ifs with hs
    · exact ⟨hle, le_rfl⟩
    · constructor <;> nlinarith
  · intro hle
    unfold interpStep
    split_ifs with hs
    · exact ⟨le_rfl, hle⟩
    · constructor <;> nlinarith
  · unfold interpStep
    split_ifs with hs
    · simp only [sub_self, abs_zero]
      positivity
    · have h85 : |target - (prev + (target - prev) * 0.15)| = 0.85 * |target - prev| := by
        rw [show target - (prev + (target - prev) * 0.15) = 0.85 * (target - prev) by ring,
          abs_mul, abs_of_nonneg (by norm_num : (0 : ℚ) ≤ 0.85)]
      exact le_of_eq h85
  · intro hs
    simp [interpStep, hs]
  · unfold interpStep
    split_ifs with hs
    · exact htn
    · nlinarith

/-- Witness for C7 at `target = 2`, `prev = 1`. -/
theorem render_interpolator_spec_witness :
    ((0 : ℚ) ≤ 2 ∧ (0 : ℚ) ≤ 1) ∧
    (interpStep 2 1 = 1.15 ∧
     ((1 : ℚ) ≤ 2 → 1 ≤ interpStep 2 1 ∧ interpStep 2 1 ≤ 2) ∧
     ((2 : ℚ) ≤ 1 → 2 ≤ interpStep 2 1 ∧ interpStep 2 1 ≤ 1) ∧
     |(2 : ℚ) - interpStep 2 1| ≤ 0.85 * |(2 : ℚ) - 1| ∧
     (|(2 : ℚ) - 1| < 0.0001 → interpStep 2 1 = 2) ∧
     0 ≤ interpStep 2 1) :=
  ⟨⟨by norm_num, by norm_num⟩, render_interpolator_spec 2 1 (by norm_num) (by norm_num)⟩

/-- Candle type of the production `CrashChart`: OHLC plus tick count and
animated render values. -/
structure Candle6 where
  open_ : ℚ
  high : ℚ
  low : ℚ
  close : ℚ
  ticks : ℕ
  animatedHigh : ℚ
  animatedLow : ℚ
  animatedClose : ℚ
deriving DecidableEq, Repr, Inhabited

/-- The round phase of `CrashChart`. -/
inductive Phase where
  | waiting
  | running
  | crashed
deriving DecidableEq, Repr

/-- The snapshot sent to the betting collaborator by `syncToBetting`. -/
structure Snapshot where
  isGameActive : Bool
  currentMultiplier : ℚ
  crashPoint : ℚ
deriving DecidableEq, Repr

/-- The `CrashChart` machine state: phase, actual game price
(`targetPrice`), the round's crash point, the countdown, the candle
buffer, and `published`, the last `syncToBetting` payload. -/
structure GameState where
  phase : Phase
  targetPrice : ℚ
  crashPoint : ℚ
  countdown : ℕ
  candles : List Candle6
  published : Snapshot
deriving DecidableEq, Repr

/-- `TICKS_PER_CANDLE` in `CrashChart`. -/
def TICKS_PER_CANDLE : ℕ := 65

/-- `COUNTDOWN_SECONDS` in `CrashChart`. -/
def COUNTDOWN_SECONDS : ℕ := 5

/-- `INITIAL_PRICE` in `CrashChart`. -/
def INITIAL_PRICE : ℚ := 1.0

/-- The per-tick price formula of the `CrashChart` game tick: volatility
0.016, trend `(r-0.5)*0.3`, a 2%-chance spike `(r-0.5)*0.22`, noise
`(r-0.5)*volatility`, floored at 0.01.  When the spike fires, its
magnitude uses draw 2 and the noise draw is 3; otherwise the noise uses
draw 2 (the ternary's false branch makes no draw). -/
def tickNewPrice (rand : ℕ → ℚ) (prev : ℚ) : ℚ :=
  let volatility : ℚ := 0.016
  let trend := (rand 0 - 0.5) * 0.3
  let spike := if rand 1 < 0.02 then (rand 2 - 0.5) * 0.22 else 0
  let noise := ((if rand 1 < 0.02 then rand 3 else rand 2) - 0.5) * volatility
  let momentum := trend * volatility + noise + spike
  max 0.01 (prev + momentum)

/-- The crash condition checked on every tick:
`(crashPoint < 1 && newPrice <= crashPoint) ||
 (crashPoint >= 1 && newPrice >= crashPoint)`. -/
def CrashCond (crashPoint newPrice : ℚ) : Prop :=
  (crashPoint < 1 ∧ newPrice ≤ crashPoint) ∨ (1 ≤ crashPoint ∧ crashPoint ≤ newPrice)

instance (a b : ℚ) : Decidable (CrashCond a b) := by
  unfold CrashCond; infer_instance

/-- The candle-buffer update of a non-crash `CrashChart` tick: a
wick-limited fold of the new price into the last candle, finalization at
`TICKS_PER_CANDLE` ticks (opening a fresh candle and keeping the last 50
via `.slice(-50)`), and the animated values eased toward the actual ones
with factor 0.4. -/
def updateCandles6 (newPrice : ℚ) (prev : List Candle6) : List Candle6 :=
  match prev.getLast? with
  | none => [⟨newPrice, newPrice, newPrice, newPrice, 1, newPrice, newPrice, newPrice⟩]
  | some last =>
    let newTicks := last.ticks + 1
    let wickLimit : ℚ := 0.015
    let bodyHigh := max last.open_ newPrice
    let bodyLow := min last.open_ newPrice
    let maxHigh := bodyHigh + wickLimit
    let maxLow := bodyLow - wickLimit
    let actualHigh := min (max last.high newPrice) maxHigh
    let actualLow := max (min last.low newPrice) maxLow
    let animSpeed : ℚ := 0.4
    if TICKS_PER_CANDLE ≤ newTicks then
      sliceLast 50 (prev.dropLast ++
        [{ last with
            close := newPrice
            high := actualHigh
            low := actualLow
            ticks := newTicks
            animatedHigh := actualHigh
            animatedLow := actualLow
            animatedClose := newPrice },
         ⟨newPrice, newPrice, newPrice, newPrice, 0, newPrice, newPrice, newPrice⟩])
    else
      prev.dropLast ++
        [{ last with
            high := actualHigh
            low := actualLow
            close := newPrice
            ticks := newTicks
            animatedHigh := last.animatedHigh + (actualHigh - last.animatedHigh) * animSpeed
            animatedLow := last.animatedLow + (actualLow - last.animatedLow) * animSpeed
            animatedClose := last.animatedClose + (newPrice - last.animatedClose) * animSpeed }]

/-- One firing of the `CrashChart` game tick (the `TICK_MS` interval).
The interval only exists while the phase is `running` (the effect returns
early otherwise), so a tick in any other phase leaves the state
untouched.  On a crash the phase flips to `crashed` within that same
tick, the crash collapse candle (`low = close = 0`) is appended, the
snapshot `{isGameActive := false, currentMultiplier := crashPoint}` is
published and `targetPrice` becomes the crash point; otherwise the
candles fold the new price, which is published as the multiplier. -/
def gameTick (rand : ℕ → ℚ) (s : GameState) : GameState :=
  if s.phase ≠ Phase.running then s
  else
    let newPrice := tickNewPrice rand s.targetPrice
    if CrashCond s.crashPoint newPrice then
      { s with
          phase := Phase.crashed
          targetPrice := s.crashPoint
          candles := s.candles ++ [⟨newPrice, newPrice, 0, 0, 0, newPrice, 0, 0⟩]
          published := ⟨false, s.crashPoint, s.crashPoint⟩ }
    else
      { s with
          targetPrice := newPrice
          candles := updateCandles6 newPrice s.candles
          published := ⟨true, newPrice, s.crashPoint⟩ }

/-- `generateCrashPoint` of `CrashChart` (the production chart's own
bucket distribution). -/
def generateCrashPoint6 (rand : ℕ → ℚ) : ℚ :=
  let r := rand 0
  if r < 0.3 then 0.5 + rand 1 * 0.49
  else if r < 0.7 then 1.01 + rand 1 * 1.5
  else if r < 0.9 then 2.5 + rand 1 * 5
  else 7.5 + rand 1 * 15

/-- `startGame` of `CrashChart`: draw a crash point, reset the price and
the candle buffer, enter `running` with countdown 0 and publish the
opening snapshot.  It does not read the previous state. -/
def startGame (rand : ℕ → ℚ) (_s : GameState) : GameState :=
  let newCrashPoint := generateCrashPoint6 rand
  { phase := Phase.running
    targetPrice := INITIAL_PRICE
    crashPoint := newCrashPoint
    countdown := 0
    candles := [⟨INITIAL_PRICE, INITIAL_PRICE, INITIAL_PRICE, INITIAL_PRICE, 0,
      INITIAL_PRICE, INITIAL_PRICE, INITIAL_PRICE⟩]
    published := ⟨true, INITIAL_PRICE, newCrashPoint⟩ }

/-- One firing of the `CrashChart` countdown interval: the effect only
runs while `countdown > 0`; at 1 it starts a new game, otherwise it
decrements. -/
def countdownTick (rand : ℕ → ℚ) (s : GameState) : GameState :=
  if s.countdown = 0 then s
  else if s.countdown ≤ 1 then startGame rand s
  else { s with countdown := s.countdown - 1 }

/-- The 2-second `setTimeout` scheduled on crash: it arms the countdown
with `COUNTDOWN_SECONDS`. -/
def crashDelay (s : GameState) : GameState :=
  { s with countdown := COUNTDOWN_SECONDS }

/-- The timer events that drive `CrashChart`: the game tick interval,
the countdown interval, the post-crash 2-second delay, and the initial
1-second start. -/
inductive GameEvent where
  | tick
  | countdown
  | crashDelayDone
  | initialStart
deriving DecidableEq, Repr

/-- Dispatch of a timer event on the machine state. -/
def stepEvent (rand : ℕ → ℚ) (e : GameEvent) (s : GameState) : GameState :=
  match e with
  | .tick => gameTick rand s
  | .countdown => countdownTick rand s
  | .crashDelayDone => crashDelay s
  | .initialStart => startGame rand s

theorem gameTick_phase (rand : ℕ → ℚ) (s : GameState) :
    (gameTick rand s).phase = s.phase ∨
    (s.phase = Phase.running ∧ (gameTick rand s).phase = Phase.crashed) := by
  simp only [gameTick]
  split_ifs with h1 h2
  · exact Or.inl rfl
  · exact Or.inr ⟨not_not.mp h1, rfl⟩
  · exact Or.inl rfl

theorem countdownTick_phase (rand : ℕ → ℚ) (s : GameState) :
    (countdownTick rand s).phase = s.phase ∨
    (countdownTick rand s).phase = Phase.running := by
  unfold countdownTick
  split_ifs
  · exact Or.inl rfl
  · exact Or.inr rfl
  · exact Or.inl rfl

/-- C1: on a tick of a running round the machine transitions to
`crashed` exactly when the newly stepped multiplier `next` satisfies
`(crashPoint < 1 ∧ next ≤ crashPoint) ∨ (crashPoint ≥ 1 ∧ next ≥
crashPoint)`, within that same tick (a single `gameTick` application);
and the snapshot published on the crash carries
`currentMultiplier = crashPoint` (hence not the raw overshoot `next` and
not 0, whenever those differ from the crash point), with `targetPrice`
also frozen at the crash point. -/
theorem crash_same_tick_snapshot (rand : ℕ → ℚ) (s : GameState)
    (hrun : s.phase = Phase.running) :
    ((gameTick rand s).phase = Phase.crashed ↔
      ((s.crashPoint < 1 ∧ tickNewPrice rand s.targetPrice ≤ s.crashPoint) ∨
       (1 ≤ s.crashPoint ∧ s.crashPoint ≤ tickNewPrice rand s.targetPrice))) ∧
    (((s.crashPoint < 1 ∧ tickNewPrice rand s.targetPrice ≤ s.crashPoint) ∨
      (1 ≤ s.crashPoint ∧ s.crashPoint ≤ tickNewPrice rand s.targetPrice)) →
      (gameTick rand s).published = ⟨false, s.crashPoint, s.crashPoint⟩ ∧
      (gameTick rand s).targetPrice = s.crashPoint) := by
  have hguard : ¬ s.phase ≠ Phase.running := not_not.mpr hrun
  simp only [gameTick]
  rw [if_neg hguard]
  by_cases hcond : CrashCond s.crashPoint (tickNewPrice rand s.targetPrice)
  · rw [if_pos hcond]
    exact ⟨iff_of_true rfl hcond, fun _ => ⟨rfl, rfl⟩⟩
  · rw [if_neg hcond]
    refine ⟨iff_of_false ?_ hcond, fun h => absurd h hcond⟩
    show ¬ s.phase = Phase.crashed
    rw [hrun]
    exact fun h => Phase.noConfusion h

/-- Witness for C1: a running state with crash point 1.9 and price 1.9,
where the constant-1 draw stream pushes the price to 1.9104 ≥ 1.9. -/
theorem crash_same_tick_snapshot_witness :
    (⟨Phase.running, 1.9, 1.9, 0, [], ⟨true, 1.9, 1.9⟩⟩ : GameState).phase =
      Phase.running ∧
    (((gameTick (fun _ => 1) ⟨Phase.running, 1.9, 1.9, 0, [], ⟨true, 1.9, 1.9⟩⟩).phase =
        Phase.crashed ↔
      (((1.9 : ℚ) < 1 ∧ tickNewPrice (fun _ => 1) 1.9 ≤ 1.9) ∨
       ((1 : ℚ) ≤ 1.9 ∧ (1.9 : ℚ) ≤ tickNewPrice (fun _ => 1) 1.9))) ∧
     ((((1.9 : ℚ) < 1 ∧ tickNewPrice (fun _ => 1) 1.9 ≤ 1.9) ∨
       ((1 : ℚ) ≤ 1.9 ∧ (1.9 : ℚ) ≤ tickNewPrice (fun _ => 1) 1.9)) →
      (gameTick (fun _ => 1) ⟨Phase.running, 1.9, 1.9, 0, [], ⟨true, 1.9, 1.9⟩⟩).published =
        ⟨false, 1.9, 1.9⟩ ∧
      (gameTick (fun _ => 1) ⟨Phase.running, 1.9, 1.9, 0, [], ⟨true, 1.9, 1.9⟩⟩).targetPrice =
        1.9)) :=
  ⟨rfl, crash_same_tick_snapshot (fun _ => 1)
    ⟨Phase.running, 1.9, 1.9, 0, [], ⟨true, 1.9, 1.9⟩⟩ rfl⟩

/-- C8 (amended): every phase change follows one of the edges
waiting→running, running→crashed or crashed→running — after the initial
`waiting` the machine cycles running→crashed→running, re-entering
`running` directly from `crashed` when the countdown expires and never
re-entering `waiting`; and `crashed` is entered exactly once per round:
it is entered only from `running`, and in the `crashed` phase game ticks
leave the state untouched until a new round starts. -/
theorem phase_cycle_amended (rand : ℕ → ℚ) (e : GameEvent) (s : GameState) :
    ((stepEvent rand e s).phase ≠ s.phase →
      ((s.phase = Phase.waiting ∧ (stepEvent rand e s).phase = Phase.running) ∨
       (s.phase = Phase.running ∧ (stepEvent rand e s).phase = Phase.crashed) ∨
       (s.phase = Phase.crashed ∧ (stepEvent rand e s).phase = Phase.running))) ∧
    (s.phase = Phase.crashed → gameTick rand s = s) ∧
    ((stepEvent rand e s).phase = Phase.crashed →
      s.phase = Phase.running ∨ s.phase = Phase.crashed) := by
  refine ⟨?_, ?_, ?_⟩
  · intro hne
    cases e with
    | tick =>
        rcases gameTick_phase rand s with h | ⟨hr, hc⟩
        · exact absurd h hne
        · exact Or.inr (Or.inl ⟨hr, hc⟩)
    | countdown =>
        rcases countdownTick_phase rand s with h | h
        · exact absurd h hne
        · cases hp : s.phase with
          | waiting => exact Or.inl ⟨rfl, h⟩
          | running => exact absurd (h.trans hp.symm) hne
          | crashed => exact Or.inr (Or.inr ⟨rfl, h⟩)
    | crashDelayDone => exact absurd rfl hne
    | initialStart =>
        have h : (stepEvent rand GameEvent.initialStart s).phase = Phase.running := rfl
        cases hp : s.phase with
        | waiting => exact Or.inl ⟨rfl, h⟩
        | running => exact absurd (h.trans hp.symm) hne
        | crashed => exact Or.inr (Or.inr ⟨rfl, h⟩)
  · intro hcr
    simp only [gameTick]
    rw [if_pos (show s.phase ≠ Phase.running by
      rw [hcr]; exact fun h => Phase.noConfusion h)]
  · intro hc
    cases e with
    | tick =>
        rcases gameTick_phase rand s with h | ⟨hr, _⟩
        · exact Or.inr (h.symm.trans hc)
        · exact Or.inl hr
    | countdown =>
        rcases countdownTick_phase rand s with h | h
        · exact Or.inr (h.symm.trans hc)
        · exact Phase.noConfusion (h.symm.trans hc)
    | crashDelayDone => exact Or.inr hc
    | initialStart => exact Phase.noConfusion hc

/-- A concrete crashed state with countdown 1 (used by the C8 theorems). -/
def sampleCrashed : GameState :=
  ⟨Phase.crashed, 1, 2, 1, [], ⟨false, 2, 2⟩⟩

/-- A concrete constant draw stream (used by the C8 theorems). -/
def sampleRand : ℕ → ℚ := fun _ => 0.5

/-- Witness for C8 at the countdown event on a crashed state. -/
theorem phase_cycle_amended_witness :
    ((stepEvent sampleRand GameEvent.countdown sampleCrashed).phase ≠
        sampleCrashed.phase →
      ((sampleCrashed.phase = Phase.waiting ∧
        (stepEvent sampleRand GameEvent.countdown sampleCrashed).phase = Phase.running) ∨
       (sampleCrashed.phase = Phase.running ∧
        (stepEvent sampleRand GameEvent.countdown sampleCrashed).phase = Phase.crashed) ∨
       (sampleCrashed.phase = Phase.crashed ∧
        (stepEvent sampleRand GameEvent.countdown sampleCrashed).phase = Phase.running))) ∧
    (sampleCrashed.phase = Phase.crashed →
      gameTick sampleRand sampleCrashed = sampleCrashed) ∧
    ((stepEvent sampleRand GameEvent.countdown sampleCrashed).phase = Phase.crashed →
      sampleCrashed.phase = Phase.running ∨ sampleCrashed.phase = Phase.crashed) :=
  phase_cycle_amended sampleRand GameEvent.countdown sampleCrashed

/-- C8 counterexample: from a crashed state with countdown 1, the
countdown event starts a new game and the phase steps directly
crashed→running — an edge outside the claimed cycle, which after
`crashed` only allows `waiting`.  The claim as stated is therefore
false on the code. -/
theorem phase_cycle_counterexample :
    sampleCrashed.phase = Phase.crashed ∧
    (stepEvent sampleRand GameEvent.countdown sampleCrashed).phase = Phase.running ∧
    (stepEvent sampleRand GameEvent.countdown sampleCrashed).phase ≠ Phase.waiting := by
  refine ⟨rfl, rfl, fun h => Phase.noConfusion h⟩

/-- The brute-force timer sweep in `startNewGame`
(`CandlestickChart.tsx`): `window.setInterval(() => {}, 9999)` returns a
fresh id `allIntervals`, and
`for (let i = 1000; i <= allIntervals; i++) window.clearInterval(i)`
clears exactly the ids in the range `[1000, allIntervals]` from the
table of pending timers. -/
def bruteForceClear (allIntervals : ℕ) (pending : List ℕ) : List ℕ :=
  pending.filter (fun i => decide (¬ (1000 ≤ i ∧ i ≤ allIntervals)))

/-- C9 (code bug): the source attaches no round identifier to ticks —
staleness is handled only by clearing the two interval refs plus this
brute-force id sweep — and the sweep misses ids below 1000: a stale
interval with id 500 survives `bruteForceClear`, so its ticks would
still be delivered and processed, while ids inside the swept range are
cleared. -/
theorem stale_timer_sweep_gap :
    bruteForceClear 2000 [500, 1500] = [500] ∧
    500 ∈ bruteForceClear 2000 [500, 1500] ∧
    1500 ∉ bruteForceClear 2000 [500, 1500] := by
  refine ⟨by decide, by decide, by decide⟩

end Mixgme
